import Mathlib

/-!
Verification of the csv-migrator column-layout transform engine
(src/src/main.rs) via a shallow embedding in Lean.

Conventions of the embedding:
- a parsed table is a header (List String) plus data rows (List (List String));
- the on-disk file content is Option (header × rows): some t is a file holding
  the serialized table t, none is an empty (truncated) file;
- the i32 positions of the CLI become Int, usize enumerate indexes become Nat
  cast to Int at the comparison, exactly as the source casts i as i32;
- panics (expect/unwrap on missing column or missing row value) become error
  values of MigError.
-/

namespace CsvMigrator

/-- Error outcomes of the transform engine: the shift-column path panics with
messages "Column not found" and "Value to migrate not found" (the spec files
both under SchemaError), and the csv reader under its default non-flexible
configuration yields an UnequalLengths error for any record whose field
count differs from the header's. -/
inductive MigError where
  | columnNotFound
  | valueNotFound
  | unequalLengths
deriving DecidableEq, Repr

/-- The enumerate-and-push walk shared by the four record loops of main.rs
(insert header loop lines 134-139, insert row loop lines 146-151, reorder
header loop lines 226-231, reorder row loop lines 244-251): scan the fields
left to right with running 0-based index i; when i as i32 equals order - 1,
push the extra field x just before the current field; otherwise push only the
current field. No append happens when order - 1 is never reached. -/
def injectWalk (x : String) (order : Int) : Nat → List String → List String
  | _, [] => []
  | i, f :: rest =>
    if (i : Int) = order - 1 then x :: f :: injectWalk x order (i + 1) rest
    else f :: injectWalk x order (i + 1) rest

/-- The walk started at index 0, as each loop in the source starts. -/
def insertFields (x : String) (order : Int) (fields : List String) : List String :=
  injectWalk x order 0 fields

/-- Embedding of the transform of InsertMigration::insert_column (main.rs
lines 119-156) on a delivered table: the new header injects the column name
before index order - 1, every data row injects the default value at the same
index, and the file is rewritten with the result. This definition elides the
reader's width check: the default non-flexible csv reader only ever delivers
data rows of the header's width (insertColumnFileStrict below embeds that
check), so this transform-only view is exercised under uniform-width
hypotheses. -/
def insertColumnFile (header : List String) (rows : List (List String))
    (column defaultValue : String) (order : Int) :
    Except MigError Unit × Option (List String × List (List String)) :=
  (Except.ok (),
   some (insertFields column order header,
         rows.map fun r => insertFields defaultValue order r))

/-- The record-pulling loop of insert_column (main.rs lines 143-153) under
the reader's default non-flexible configuration (csv::Reader::from_reader at
line 128): each record comes from the reader already width-checked, so the
first data row whose field count differs from the header's surfaces
Err(UnequalLengths) at the question-mark on line 144 and stops the loop. On
that failure the error carries the rows already pushed to the writer before
the failing one, which the writer flushes when dropped. -/
def insertRowsRead (headerLen : Nat) (defaultValue : String) (order : Int) :
    List (List String) → Except (List (List String)) (List (List String))
  | [] => Except.ok []
  | r :: rest =>
    if r.length = headerLen then
      let newRow := insertFields defaultValue order r
      match insertRowsRead headerLen defaultValue order rest with
      | Except.ok newRows => Except.ok (newRow :: newRows)
      | Except.error written => Except.error (newRow :: written)
    else Except.error []

/-- Embedding of InsertMigration::insert_column including the reader's
default non-flexible width check: the header is written first (line 140),
then the rows are pulled one by one; a data row whose field count differs
from the header's aborts the operation with UnequalLengths, leaving the file
holding the new header and the rows transformed before the failure. -/
def insertColumnFileStrict (header : List String) (rows : List (List String))
    (column defaultValue : String) (order : Int) :
    Except MigError Unit × Option (List String × List (List String)) :=
  let newHeader := insertFields column order header
  match insertRowsRead header.length defaultValue order rows with
  | Except.ok newRows => (Except.ok (), some (newHeader, newRows))
  | Except.error written => (Except.error MigError.unequalLengths, some (newHeader, written))

/-- The data-row loop of ReorderMigration::shift_column (main.rs lines
235-253): for each row, read the value at the resolved header index (panic,
modelled as an error, when the row is shorter), remove it, and re-insert it
via the walk. On failure the error carries the rows already written to the
csv writer before the panic, which the writer flushes when dropped. -/
def shiftRows (idx : Nat) (order : Int) :
    List (List String) → Except (List (List String)) (List (List String))
  | [] => Except.ok []
  | r :: rest =>
    match r[idx]? with
    | none => Except.error []
    | some targetValue =>
      let newRow := injectWalk targetValue order 0 (r.eraseIdx idx)
      match shiftRows idx order rest with
      | Except.ok newRows => Except.ok (newRow :: newRows)
      | Except.error written => Except.error (newRow :: written)

/-- Embedding of ReorderMigration::shift_column (main.rs lines 192-256),
tracking the file content. The csv writer is created from the path before
the column lookup, which truncates the file on the spot; so file content is
none from that moment until records are flushed. Resolve the first header
index whose field equals the column (position, line 206); on no match the
source panics (Column not found) with nothing yet flushed, leaving the file
empty. When the index already equals order - 1, header and rows are copied
verbatim. Otherwise the field at the index is removed and re-inserted by the
walk, for the header and for every row. -/
def shiftColumnFile (header : List String) (rows : List (List String))
    (column : String) (order : Int) :
    Except MigError Unit × Option (List String × List (List String)) :=
  match header.findIdx? (fun f => f == column) with
  | none => (Except.error MigError.columnNotFound, none)
  | some idx =>
    if (idx : Int) = order - 1 then
      (Except.ok (), some (header, rows))
    else
      let target := header.getD idx ""
      let newHeader := injectWalk target order 0 (header.eraseIdx idx)
      match shiftRows idx order rows with
      | Except.ok newRows => (Except.ok (), some (newHeader, newRows))
      | Except.error written => (Except.error MigError.valueNotFound, some (newHeader, written))

/-- When order - 1 lies strictly below the running index, the walk never
injects and reproduces the list. Covers non-positive orders at index 0. -/
theorem injectWalk_low (x : String) (order : Int) :
    ∀ (l : List String) (i : Nat), order - 1 < (i : Int) →
      injectWalk x order i l = l := by
  intro l
  induction l with
  | nil => intro i _; rfl
  | cons f rest ih =>
    intro i hi
    have hne : (i : Int) ≠ order - 1 := by omega
    have hnext : order - 1 < ((i + 1 : Nat) : Int) := by push_cast; omega
    simp only [injectWalk, if_neg hne, ih (i + 1) hnext]

/-- When order - 1 lies at or beyond the indexes the walk will visit, the walk
never injects and reproduces the list. -/
theorem injectWalk_high (x : String) (order : Int) :
    ∀ (l : List String) (i : Nat), (l.length : Int) + (i : Int) ≤ order - 1 →
      injectWalk x order i l = l := by
  intro l
  induction l with
  | nil => intro i _; rfl
  | cons f rest ih =>
    intro i hi
    simp only [List.length_cons] at hi
    have hne : (i : Int) ≠ order - 1 := by push_cast at hi ⊢; omega
    have hnext : (rest.length : Int) + ((i + 1 : Nat) : Int) ≤ order - 1 := by
      push_cast at hi ⊢; omega
    simp only [injectWalk, if_neg hne, ih (i + 1) hnext]

/-- When order - 1 falls on a position the walk visits, the walk inserts x
just before the field at that position: the result is the prefix, then x,
then the rest. -/
theorem injectWalk_mid (x : String) (order : Int) :
    ∀ (l : List String) (i p : Nat), (i : Int) + (p : Int) = order - 1 →
      p < l.length →
      injectWalk x order i l = l.take p ++ x :: l.drop p := by
  intro l
  induction l with
  | nil => intro i p _ hp; simp at hp
  | cons f rest ih =>
    intro i p hip hp
    cases p with
    | zero =>
      have heq : (i : Int) = order - 1 := by push_cast at hip; omega
      have htail : injectWalk x order (i + 1) rest = rest := by
        apply injectWalk_low
        push_cast
        omega
      simp only [injectWalk, if_pos heq, htail, List.take_zero, List.drop_zero,
        List.nil_append]
    | succ q =>
      have hne : (i : Int) ≠ order - 1 := by push_cast at hip ⊢; omega
      have hip2 : ((i + 1 : Nat) : Int) + (q : Int) = order - 1 := by
        push_cast at hip ⊢; omega
      have hq : q < rest.length := by
        simp only [List.length_cons] at hp; omega
      simp only [injectWalk, if_neg hne, ih (i + 1) q hip2 hq, List.take_succ_cons,
        List.drop_succ_cons, List.cons_append]

/-- C1: Insert round-trip. For a header of n fields and 1-based position k with
1 ≤ k ≤ n, insert_column puts the new column name at 0-based index k - 1 of
the header with the original fields from that point shifted right by one, and
every data row of the header's width gets the default value at the same index
with its other fields shifted identically. -/
theorem insert_round_trip (header : List String) (rows : List (List String))
    (column defaultValue : String) (k : Nat)
    (hk1 : 1 ≤ k) (hk2 : k ≤ header.length)
    (hrows : ∀ r ∈ rows, r.length = header.length) :
    insertColumnFile header rows column defaultValue (k : Int) =
      (Except.ok (),
       some (header.take (k - 1) ++ column :: header.drop (k - 1),
             rows.map fun r => r.take (k - 1) ++ defaultValue :: r.drop (k - 1))) := by
  have hheader : insertFields column (k : Int) header =
      header.take (k - 1) ++ column :: header.drop (k - 1) := by
    unfold insertFields
    exact injectWalk_mid column (k : Int) header 0 (k - 1) (by omega) (by omega)
  have hrow : ∀ r ∈ rows, insertFields defaultValue (k : Int) r =
      r.take (k - 1) ++ defaultValue :: r.drop (k - 1) := by
    intro r hr
    unfold insertFields
    exact injectWalk_mid defaultValue (k : Int) r 0 (k - 1) (by omega)
      (by have := hrows r hr; omega)
  simp only [insertColumnFile, hheader, List.map_congr_left hrow]

theorem insert_round_trip_witness :
    insertColumnFile ["H1", "H2", "H3"] [["V1", "V2", "V3"]] "X" "D" ((2 : Nat) : Int) =
      (Except.ok (), some (["H1", "X", "H2", "H3"], [["V1", "D", "V2", "V3"]])) := by
  rw [insert_round_trip ["H1", "H2", "H3"] [["V1", "V2", "V3"]] "X" "D" 2
    (by decide) (by decide) (by decide)]
  rfl

/-- C4: Insert out-of-range. When order - 1 is at or beyond the header's
length, nothing is injected and nothing is appended: the header is unchanged
and the new column name is absent from it (when it was fresh); likewise every
data row shorter than order passes through unchanged. -/
theorem insert_out_of_range (header : List String) (column defaultValue : String)
    (order : Int) (r : List String)
    (hhigh : (header.length : Int) ≤ order - 1)
    (hfresh : column ∉ header)
    (hr : (r.length : Int) < order) :
    insertFields column order header = header ∧
    column ∉ insertFields column order header ∧
    insertFields defaultValue order r = r := by
  have h1 : insertFields column order header = header := by
    unfold insertFields
    exact injectWalk_high column order header 0 (by push_cast; omega)
  have h2 : insertFields defaultValue order r = r := by
    unfold insertFields
    exact injectWalk_high defaultValue order r 0 (by push_cast; omega)
  exact ⟨h1, by rw [h1]; exact hfresh, h2⟩

theorem insert_out_of_range_witness :
    insertFields "X" 3 ["H1", "H2"] = ["H1", "H2"] ∧
    "X" ∉ insertFields "X" 3 ["H1", "H2"] ∧
    insertFields "D" 3 ["V1", "V2"] = ["V1", "V2"] :=
  insert_out_of_range ["H1", "H2"] "X" "D" 3 ["V1", "V2"]
    (by decide) (by decide) (by decide)

/-- The record loop under the non-flexible reader errors whenever some row's
width differs from the header's. -/
theorem insertRowsRead_error (headerLen : Nat) (defaultValue : String) (order : Int) :
    ∀ rows : List (List String), (∃ r ∈ rows, r.length ≠ headerLen) →
      ∃ written, insertRowsRead headerLen defaultValue order rows =
        Except.error written := by
  intro rows
  induction rows with
  | nil => intro h; simp at h
  | cons r rest ih =>
    intro h
    by_cases hr : r.length = headerLen
    · have hrest : ∃ a ∈ rest, a.length ≠ headerLen := by
        obtain ⟨a, ha, hl⟩ := h
        rcases List.mem_cons.mp ha with rfl | hmem
        · exact absurd hr hl
        · exact ⟨a, hmem, hl⟩
      obtain ⟨w, hw⟩ := ih hrest
      refine ⟨insertFields defaultValue order r :: w, ?_⟩
      simp only [insertRowsRead, if_pos hr, hw]
    · exact ⟨[], by simp only [insertRowsRead, if_neg hr]⟩

/-- C7 counterexample: a table whose single data row is shorter than the
header makes insert_column fail with UnequalLengths from the non-flexible
reader, so a field-count mismatch is an error, not a success. -/
theorem insert_ragged_rows_cex :
    (insertColumnFileStrict ["H1", "H2"] [["V1"]] "X" "D" 1).1 =
      Except.error MigError.unequalLengths ∧
    (Except.error MigError.unequalLengths : Except MigError Unit) ≠ Except.ok () :=
  ⟨rfl, fun h => Except.noConfusion h⟩

/-- C7 as the code has it: a data row whose field count differs from the
header's is an error for Insert: the default csv reader is non-flexible, so
the first such row surfaces UnequalLengths through the question-mark at
line 144 and insert_column fails instead of processing the row. -/
theorem insert_ragged_rows_error (header : List String) (rows : List (List String))
    (column defaultValue : String) (order : Int)
    (hragged : ∃ r ∈ rows, r.length ≠ header.length) :
    (insertColumnFileStrict header rows column defaultValue order).1 =
      Except.error MigError.unequalLengths := by
  obtain ⟨w, hw⟩ := insertRowsRead_error header.length defaultValue order rows hragged
  simp only [insertColumnFileStrict, hw]

theorem insert_ragged_rows_error_witness :
    (insertColumnFileStrict ["H1", "H2"] [["V1"], ["V1", "V2", "V3"]] "X" "D" 1).1 =
      Except.error MigError.unequalLengths :=
  insert_ragged_rows_error ["H1", "H2"] [["V1"], ["V1", "V2", "V3"]] "X" "D" 1
    (by decide)

/-- A successful first-match lookup lands strictly inside the header and the
field found there is the requested column. -/
theorem findIdx_col_spec (header : List String) (column : String) (i : Nat)
    (h : header.findIdx? (fun f => f == column) = some i) :
    i < header.length ∧ header.getD i "" = column := by
  obtain ⟨hlt, hp, -⟩ := List.findIdx?_eq_some_iff_getElem.mp h
  refine ⟨hlt, ?_⟩
  rw [List.getD_eq_getElem?_getD, List.getElem?_eq_getElem hlt]
  simpa using hp

/-- The data-row loop succeeds on every row long enough to hold the resolved
index, producing per row the removal at the index followed by the walk. -/
theorem shiftRows_ok (idx : Nat) (order : Int) :
    ∀ rows : List (List String), (∀ r ∈ rows, idx < r.length) →
      shiftRows idx order rows =
        Except.ok (rows.map fun r => injectWalk (r.getD idx "") order 0 (r.eraseIdx idx)) := by
  intro rows
  induction rows with
  | nil => intro _; rfl
  | cons r rest ih =>
    intro h
    have hr : idx < r.length := h r (List.mem_cons_self r rest)
    have hrow : r[idx]? = some (r.getD idx "") := by
      rw [List.getD_eq_getElem?_getD, List.getElem?_eq_getElem hr]
      rfl
    have htail := ih fun a ha => h a (List.mem_cons_of_mem r ha)
    simp only [shiftRows, hrow, htail, List.map_cons]

/-- C2: Reorder round-trip. When the first header field equal to the column
sits at index i, i differs from order - 1, and order - 1 lies strictly inside
the reduced header, shift_column moves that field to 0-based index order - 1:
the output header is the reduced header with the column re-inserted before
its field at that index, the remaining fields keeping their relative order,
and every data row of the header's width has its field at index i moved by
the identical transform. -/
theorem reorder_round_trip (header : List String) (rows : List (List String))
    (column : String) (order : Int) (i p : Nat)
    (hfind : header.findIdx? (fun f => f == column) = some i)
    (hp : (p : Int) = order - 1)
    (hne : i ≠ p)
    (hlt : p + 1 < header.length)
    (hrows : ∀ r ∈ rows, r.length = header.length) :
    shiftColumnFile header rows column order =
      (Except.ok (),
       some ((header.eraseIdx i).take p ++ column :: (header.eraseIdx i).drop p,
             rows.map fun r =>
               (r.eraseIdx i).take p ++ r.getD i "" :: (r.eraseIdx i).drop p)) := by
  obtain ⟨hi, htarget⟩ := findIdx_col_spec header column i hfind
  have hine : (i : Int) ≠ order - 1 := by omega
  have hheader : injectWalk (header.getD i "") order 0 (header.eraseIdx i) =
      (header.eraseIdx i).take p ++ column :: (header.eraseIdx i).drop p := by
    rw [htarget]
    refine injectWalk_mid column order (header.eraseIdx i) 0 p (by omega) ?_
    rw [List.length_eraseIdx_of_lt hi]
    omega
  have hrowlen : ∀ r ∈ rows, i < r.length := fun r hr => by
    rw [hrows r hr]; omega
  have hrowsOk := shiftRows_ok i order rows hrowlen
  have hroweq : ∀ r ∈ rows, injectWalk (r.getD i "") order 0 (r.eraseIdx i) =
      (r.eraseIdx i).take p ++ r.getD i "" :: (r.eraseIdx i).drop p := by
    intro r hr
    refine injectWalk_mid (r.getD i "") order (r.eraseIdx i) 0 p (by omega) ?_
    rw [List.length_eraseIdx_of_lt (hrowlen r hr), hrows r hr]
    omega
  simp only [shiftColumnFile, hfind, if_neg hine, hrowsOk, hheader,
    List.map_congr_left hroweq]

theorem reorder_round_trip_witness :
    shiftColumnFile ["H1", "H2", "H3"] [["A", "B", "C"]] "H3" 1 =
      (Except.ok (), some (["H3", "H1", "H2"], [["C", "A", "B"]])) := by
  rw [reorder_round_trip ["H1", "H2", "H3"] [["A", "B", "C"]] "H3" 1 2 0
    (by decide) (by decide) (by decide) (by decide) (by decide)]
  rfl

/-- C5 as the code has it: when order - 1 is at or beyond the reduced
header's length, the removed field is dropped, not appended: the output is
just the reduced header, and each data row of the header's width likewise
loses its value at the index with nothing appended. -/
theorem reorder_out_of_range_drops (header : List String) (rows : List (List String))
    (column : String) (order : Int) (i : Nat)
    (hfind : header.findIdx? (fun f => f == column) = some i)
    (hne : (i : Int) ≠ order - 1)
    (hhigh : (header.length : Int) ≤ order)
    (hrows : ∀ r ∈ rows, r.length = header.length) :
    shiftColumnFile header rows column order =
      (Except.ok (), some (header.eraseIdx i, rows.map fun r => r.eraseIdx i)) := by
  obtain ⟨hi, -⟩ := findIdx_col_spec header column i hfind
  have hheader : injectWalk (header.getD i "") order 0 (header.eraseIdx i) =
      header.eraseIdx i := by
    refine injectWalk_high (header.getD i "") order (header.eraseIdx i) 0 ?_
    rw [List.length_eraseIdx_of_lt hi]
    push_cast
    omega
  have hrowlen : ∀ r ∈ rows, i < r.length := fun r hr => by
    rw [hrows r hr]; omega
  have hrowsOk := shiftRows_ok i order rows hrowlen
  have hroweq : ∀ r ∈ rows, injectWalk (r.getD i "") order 0 (r.eraseIdx i) =
      r.eraseIdx i := by
    intro r hr
    refine injectWalk_high (r.getD i "") order (r.eraseIdx i) 0 ?_
    rw [List.length_eraseIdx_of_lt (hrowlen r hr), hrows r hr]
    push_cast
    omega
  simp only [shiftColumnFile, hfind, if_neg hne, hrowsOk, hheader,
    List.map_congr_left hroweq]

theorem reorder_out_of_range_drops_witness :
    shiftColumnFile ["H1", "H2", "H3"] [["A", "B", "C"]] "H1" 3 =
      (Except.ok (), some (["H2", "H3"], [["B", "C"]])) := by
  rw [reorder_out_of_range_drops ["H1", "H2", "H3"] [["A", "B", "C"]] "H1" 3 0
    (by decide) (by decide) (by decide) (by decide)]
  rfl

/-- C5 counterexample: moving H1 of header H1,H2,H3 to position 3 makes
order - 1 land at the end of the reduced header; the claim says the removed
field is appended there, but the code emits the reduced table with the field
dropped, so the output differs from the claimed append-at-end result. -/
theorem reorder_append_at_end_cex :
    shiftColumnFile ["H1", "H2", "H3"] [["A", "B", "C"]] "H1" 3 =
      (Except.ok (), some (["H2", "H3"], [["B", "C"]])) ∧
    (some (["H2", "H3"], [["B", "C"]]) : Option (List String × List (List String))) ≠
      some (["H2", "H3", "H1"], [["B", "C", "A"]]) :=
  ⟨rfl, by decide⟩

/-- C3 as the code has it: when no header field equals the column,
shift_column fails with the column-not-found error, but the file has already
been truncated by the creation of the csv writer before the lookup, so the
file is left empty rather than unmodified. -/
theorem reorder_missing_column_truncates (header : List String) (rows : List (List String))
    (column : String) (order : Int)
    (hmiss : header.findIdx? (fun f => f == column) = none) :
    shiftColumnFile header rows column order =
      (Except.error MigError.columnNotFound, none) := by
  simp only [shiftColumnFile, hmiss]

theorem reorder_missing_column_truncates_witness :
    shiftColumnFile ["X", "Y"] [["1", "2"], ["3", "4"]] "Q" 2 =
      (Except.error MigError.columnNotFound, none) :=
  reorder_missing_column_truncates ["X", "Y"] [["1", "2"], ["3", "4"]] "Q" 2 (by decide)

/-- C3 counterexample: with a column absent from the header the operation
does fail, but the resulting file content is empty (none), not the original
table: the writer truncates the file before the lookup, so the file is
modified even though no record was written. -/
theorem reorder_missing_column_cex :
    shiftColumnFile ["H1", "H2"] [["A", "B"]] "Z" 1 =
      (Except.error MigError.columnNotFound, none) ∧
    (none : Option (List String × List (List String))) ≠
      some (["H1", "H2"], [["A", "B"]]) :=
  ⟨rfl, by decide⟩

mutual
/-- A directory-tree entry: a plain file or a directory holding entries in
directory-read order. The name is the final path component. The entries sit
in a bespoke mutual list type so that the traversal functions below are
structurally recursive and evaluate. -/
inductive FsEntry where
  | file (name : String)
  | dir (name : String) (entries : FsList)

/-- A sequence of directory entries in directory-read order. -/
inductive FsList where
  | nil
  | cons (e : FsEntry) (rest : FsList)
end

/-- Embedding of Rust Path::extension().unwrap_or_default() on a final path
component: the text after the last dot; empty when there is no dot, or when
the name is a leading-dot name with no further dot. -/
def rustExt (name : String) : String :=
  let rev := name.data.reverse
  let ext := rev.takeWhile fun c => c != '.'
  if ext.length = rev.length then ""
  else if ext.length + 1 = rev.length then ""
  else String.mk ext.reverse

/-- ASCII lowercasing of a string, character by character, as OsStr's
to_ascii_lowercase does. -/
def asciiLower (s : String) : String :=
  String.mk (s.data.map Char.toLower)

/-- The extension test of Migration::get_csv_files (main.rs lines 25-26):
ASCII-lowercase the extension and compare with csv. -/
def isCsvName (name : String) : Bool :=
  asciiLower (rustExt name) == "csv"

mutual
/-- Embedding of the loop body of Migration::get_csv_files (main.rs lines
18-29) on one entry: a directory contributes its recursive results first,
and then the entry itself is appended whenever its own name passes the
extension test, there being no else between the recursion and the test. -/
def getCsvFilesEntry (pre : String) : FsEntry → List String
  | FsEntry.file n => if isCsvName n then [pre ++ n] else []
  | FsEntry.dir n es =>
      getCsvFilesList (pre ++ n ++ "/") es ++ (if isCsvName n then [pre ++ n] else [])

/-- Embedding of Migration::get_csv_files over a directory's entries in
directory-read order. -/
def getCsvFilesList (pre : String) : FsList → List String
  | FsList.nil => []
  | FsList.cons e rest => getCsvFilesEntry pre e ++ getCsvFilesList pre rest
end

mutual
/-- Collector following the spec's words for the File Locator, to compare
with getCsvFilesEntry: directories are only recursed into and are never
themselves results; a file is a result exactly when its extension matches. -/
def csvFilesSpecEntry (pre : String) : FsEntry → List String
  | FsEntry.file n => if isCsvName n then [pre ++ n] else []
  | FsEntry.dir n es => csvFilesSpecList (pre ++ n ++ "/") es

/-- The spec-side collector over a directory's entries in order. -/
def csvFilesSpecList (pre : String) : FsList → List String
  | FsList.nil => []
  | FsList.cons e rest => csvFilesSpecEntry pre e ++ csvFilesSpecList pre rest
end

mutual
/-- No directory anywhere below the entry carries a name passing the csv
extension test. -/
def noCsvDirEntry : FsEntry → Bool
  | FsEntry.file _ => true
  | FsEntry.dir n es => !(isCsvName n) && noCsvDirList es

/-- The same condition over a sequence of entries. -/
def noCsvDirList : FsList → Bool
  | FsList.nil => true
  | FsList.cons e rest => noCsvDirEntry e && noCsvDirList rest
end

mutual
theorem getCsvFilesEntry_eq_spec :
    ∀ (pre : String) (e : FsEntry), noCsvDirEntry e = true →
      getCsvFilesEntry pre e = csvFilesSpecEntry pre e
  | _, FsEntry.file _, _ => rfl
  | pre, FsEntry.dir n es, h => by
    simp only [noCsvDirEntry, Bool.and_eq_true, Bool.not_eq_true'] at h
    simp only [getCsvFilesEntry, csvFilesSpecEntry, h.1, Bool.false_eq_true, if_false,
      getCsvFilesList_eq_spec (pre ++ n ++ "/") es h.2, List.append_nil]

theorem getCsvFilesList_eq_spec :
    ∀ (pre : String) (l : FsList), noCsvDirList l = true →
      getCsvFilesList pre l = csvFilesSpecList pre l
  | _, FsList.nil, _ => rfl
  | pre, FsList.cons e rest, h => by
    simp only [noCsvDirList, Bool.and_eq_true] at h
    simp only [getCsvFilesList, csvFilesSpecList,
      getCsvFilesEntry_eq_spec pre e h.1, getCsvFilesList_eq_spec pre rest h.2]
end

/-- C8 amended: on a tree in which no directory name passes the csv
extension test, get_csv_files returns exactly the files whose extension
matches csv case-insensitively, at every nesting depth, in traversal order;
directories with a matching name would also be returned, which is why the
side condition is needed. -/
theorem locate_csv_files_exact (pre : String) (tree : FsList)
    (h : noCsvDirList tree = true) :
    getCsvFilesList pre tree = csvFilesSpecList pre tree :=
  getCsvFilesList_eq_spec pre tree h

/-- A sample tree: matching files at three depths with non-matching files
and extension-free directories interspersed. -/
def sampleTree : FsList :=
  FsList.cons (FsEntry.file "a.csv")
    (FsList.cons (FsEntry.file "b.txt")
      (FsList.cons
        (FsEntry.dir "sub"
          (FsList.cons (FsEntry.file "c.CSV")
            (FsList.cons (FsEntry.dir "deep" (FsList.cons (FsEntry.file "d.csv") FsList.nil))
              (FsList.cons (FsEntry.file "e.md") FsList.nil))))
        (FsList.cons (FsEntry.file "f.Csv") FsList.nil)))

theorem locate_csv_files_exact_witness :
    noCsvDirList sampleTree = true ∧
    getCsvFilesList "" sampleTree = csvFilesSpecList "" sampleTree ∧
    csvFilesSpecList "" sampleTree = ["a.csv", "sub/c.CSV", "sub/deep/d.csv", "f.Csv"] :=
  ⟨by decide, locate_csv_files_exact "" sampleTree (by decide), by decide⟩

/-- C8 counterexample: a tree holding a single empty directory named d.csv
and no file at all still yields that directory's path, because the extension
test runs on directories too; so directories are not never included. -/
theorem locate_csv_dir_cex :
    getCsvFilesList "" (FsList.cons (FsEntry.dir "d.csv" FsList.nil) FsList.nil) = ["d.csv"] ∧
    csvFilesSpecList "" (FsList.cons (FsEntry.dir "d.csv" FsList.nil) FsList.nil) = [] ∧
    (["d.csv"] : List String) ≠ [] :=
  ⟨by decide, by decide, by decide⟩

/-- Modelled from the spec: the field-quoting rule of the delimited-text
writer used by insert_column and shift_column lives in the csv crate, an
external dependency absent from src/; the spec requires fields containing
the delimiter, quote character, or newline to be quoted on output. -/
def needsQuoting (v : String) : Bool :=
  v.data.any fun c => c == ',' || c == '"' || c == '\n' || c == '\r'

/-- Modelled from the spec: quote-doubling inside a quoted field as the
writer emits it. -/
def csvEscape : List Char → List Char
  | [] => []
  | c :: rest => if c = '"' then '"' :: '"' :: csvEscape rest else c :: csvEscape rest

/-- Modelled from the spec: the text written for one field: quoted with
doubled quotes when the field needs quoting, bare otherwise. -/
def writeField (v : String) : String :=
  if needsQuoting v then String.mk ('"' :: (csvEscape v.data ++ ['"'])) else v

/-- Modelled from the spec: reading the interior of a quoted field: a lone
closing quote ends the field, a doubled quote stands for one quote, any
other character stands for itself; a closing quote followed by more text is
malformed for a standalone field. -/
def csvUnquote : List Char → Option (List Char)
  | [] => none
  | c :: rest =>
    if c = '"' then
      match rest with
      | [] => some []
      | c2 :: rest2 =>
        if c2 = '"' then (csvUnquote rest2).map (fun t => '"' :: t)
        else none
    else (csvUnquote rest).map (fun t => c :: t)

/-- Modelled from the spec: parsing one standalone field of the
delimited-text reader: a field opening with a quote is read quoted, a bare
field is its own text provided it holds no delimiter, quote or newline. -/
def readField (s : String) : Option String :=
  if s.data.head? = some '"' then (csvUnquote s.data.tail).map String.mk
  else if s.data.any (fun c => c == ',' || c == '"' || c == '\n' || c == '\r') then none
  else some (String.mk s.data)

/-- Reading a doubled quote emits one quote and continues. -/
theorem csvUnquote_doubled (l : List Char) :
    csvUnquote ('"' :: '"' :: l) = (csvUnquote l).map (fun t => '"' :: t) := rfl

/-- Reading an ordinary character emits it and continues. -/
theorem csvUnquote_plain (c : Char) (hc : ¬ c = '"') (l : List Char) :
    csvUnquote (c :: l) = (csvUnquote l).map (fun t => c :: t) := by
  rw [csvUnquote.eq_def]
  simp only [if_neg hc]

/-- Unquoting undoes quote-doubling up to the closing quote. -/
theorem csvUnquote_escape (l : List Char) :
    csvUnquote (csvEscape l ++ ['"']) = some l := by
  induction l with
  | nil => rfl
  | cons c rest ih =>
    by_cases hc : c = '"'
    · subst hc
      have h1 : csvEscape ('"' :: rest) = '"' :: '"' :: csvEscape rest := by
        simp [csvEscape]
      rw [h1, List.cons_append, List.cons_append, csvUnquote_doubled, ih, Option.map_some']
    · have h1 : csvEscape (c :: rest) = c :: csvEscape rest := by
        simp only [csvEscape, if_neg hc]
      rw [h1, List.cons_append, csvUnquote_plain c hc, ih, Option.map_some']

/-- C9: Quoting round-trip. Writing any text field value, commas, quotes and
newlines included, and re-parsing the written output yields the identical
original value. -/
theorem quoting_round_trip (v : String) : readField (writeField v) = some v := by
  cases hb : needsQuoting v with
  | true =>
    have hw : writeField v = String.mk ('"' :: (csvEscape v.data ++ ['"'])) := by
      simp only [writeField, hb, if_true]
    rw [hw, readField]
    simp only [List.head?_cons, List.tail_cons, csvUnquote_escape, Option.map_some', if_true]
  | false =>
    have hw : writeField v = v := by
      simp only [writeField, hb, Bool.false_eq_true, if_false]
    have hany : v.data.any (fun c => c == ',' || c == '"' || c == '\n' || c == '\r') = false := hb
    have hhead : ¬ v.data.head? = some '"' := by
      intro hcontra
      have hmem : '"' ∈ v.data := List.mem_of_mem_head? hcontra
      have := (List.any_eq_false.mp hany) '"' hmem
      simp at this
    rw [hw, readField, if_neg hhead]
    simp only [hany, Bool.false_eq_true, if_false]

end CsvMigrator
